import Mathlib

/-!
Verification of the MemeSync job orchestration and timing engine.

The definitions below are a shallow embedding of the JavaScript source:
* `expandLongSegments` and its helpers embed `MemeVideoGenerator.expandLongSegments`
  (src/index.js, lines 698-767); JS floating point durations are modelled as
  rationals, and the asynchronous call to `getAdditionalMemesForKeyword` is
  modelled as an explicit function parameter.
* `apiGenerate` and `apiContinue` embed the request validation and job mutation
  of the `/api/generate` and `/api/continue/:jobId` express handlers
  (src/server.js); `timeToSeconds` and `isValidTimeRange` embed
  src/utils/timeHelpers.js.
* `downloadAudioWithRetry` and `downloadAudio` embed the retrieval subsystem of
  src/renderVideo.js, with the network and filesystem effects made explicit
  (an outcome oracle per attempt, and an explicit file state for the output
  path that every attempt writes to).
* `ytProgress` and `scriptProgress` embed the progress values emitted by the
  `updateJob` calls of `generateVideoAsync` and `generateScriptVideoAsync`
  (src/server.js).
-/

namespace MemeSync

/-! ## Segment expansion (src/index.js 698-767) -/

/-- A matched meme entry as produced by the asset-matching stage and consumed
by `expandLongSegments`.  `memeUrl` is the JS `meme.meme.url`; `segmentIndex`
and `totalSegments` are absent (`none`) until segment expansion tags a slot. -/
structure MatchedMeme where
  start : ℚ
  endTime : ℚ
  text : String
  keyword : String
  memeUrl : String
  segmentIndex : Option ℕ
  totalSegments : Option ℕ
deriving DecidableEq

/-- Source constant `maxSegmentDuration = 5.0` (src/index.js line 700). -/
def maxSegmentDuration : ℚ := 5

/-- Source constant `minSegmentDuration = 3.0` (src/index.js line 701). -/
def minSegmentDuration : ℚ := 3

/-- Source line `numSegments = Math.floor(duration / maxSegmentDuration)` (line 716),
before the remainder adjustment. -/
def numFullSegments (duration : ℚ) : ℕ :=
  (⌊duration / maxSegmentDuration⌋).toNat

/-- Source line `remainder = duration - (numSegments * maxSegmentDuration)` (line 717). -/
def segmentRemainder (duration : ℚ) : ℚ :=
  duration - numFullSegments duration * maxSegmentDuration

/-- The number of sub-segments after the remainder adjustment
(src/index.js lines 720-726): a remainder in `(0, min)` is absorbed into the
last segment, a remainder `>= min` becomes its own segment. -/
def numSubSegments (duration : ℚ) : ℕ :=
  if 0 < segmentRemainder duration ∧ segmentRemainder duration < minSegmentDuration then
    numFullSegments duration
  else if minSegmentDuration ≤ segmentRemainder duration then
    numFullSegments duration + 1
  else
    numFullSegments duration

/-- Source line `memeUrl = additionalMemes[i] || meme.meme.url` (line 748); the JS
`||` falls back both when the index is out of range (`undefined`) and when the
entry is the empty string (both are falsy). -/
def subSegmentUrl (additionalMemes : List String) (i : ℕ) (originalUrl : String) : String :=
  match additionalMemes.get? i with
  | some u => if u = "" then originalUrl else u
  | none => originalUrl

/-- The i-th sub-segment pushed by the inner loop of `expandLongSegments`
(src/index.js lines 734-760): starts at `start + i * maxSegmentDuration`, the
last sub-segment extends to the original end, the others end one
`maxSegmentDuration` later; tagged with a 1-based `segmentIndex` and
`totalSegments`. -/
def subSlot (additionalMemes : List String) (meme : MatchedMeme) (numSegments i : ℕ) :
    MatchedMeme :=
  { meme with
      start := meme.start + (i : ℚ) * maxSegmentDuration
      endTime :=
        if i = numSegments - 1 then meme.endTime
        else meme.start + ((i : ℚ) + 1) * maxSegmentDuration
      memeUrl := subSegmentUrl additionalMemes i meme.memeUrl
      segmentIndex := some (i + 1)
      totalSegments := some numSegments }

/-- Expansion of one matched meme (the body of the `for (const meme of
matchedMemes)` loop, src/index.js lines 703-763).  `getAdditionalMemes` models
the asynchronous `getAdditionalMemesForKeyword(keyword, numSegments, database)`
call, which the code invokes with the keyword and the number of sub-segments. -/
def expandMeme (getAdditionalMemes : String → ℕ → List String) (meme : MatchedMeme) :
    List MatchedMeme :=
  if meme.endTime - meme.start ≤ maxSegmentDuration then
    [meme]
  else
    (List.range (numSubSegments (meme.endTime - meme.start))).map
      (subSlot (getAdditionalMemes meme.keyword (numSubSegments (meme.endTime - meme.start)))
        meme (numSubSegments (meme.endTime - meme.start)))

/-- Embedding of `expandLongSegments` (src/index.js 698-767): the loop pushes, for each
input meme in order, either the meme itself or its sub-segments. -/
def expandLongSegments (getAdditionalMemes : String → ℕ → List String) :
    List MatchedMeme → List MatchedMeme
  | [] => []
  | meme :: rest =>
      expandMeme getAdditionalMemes meme ++ expandLongSegments getAdditionalMemes rest

/-- A collaborator that never supplies additional memes. -/
def noExtraMemes : String → ℕ → List String := fun _ _ => []

/-- A collaborator that supplies two additional memes for every request. -/
def twoExtraMemes : String → ℕ → List String := fun _ _ => ["u1", "u2"]

/-- A 12-second matched meme starting at 0 (concrete case of the spec). -/
def meme12 : MatchedMeme :=
  { start := 0, endTime := 12, text := "t", keyword := "k", memeUrl := "u",
    segmentIndex := none, totalSegments := none }

/-- A 13-second matched meme starting at 0 (concrete case of the spec). -/
def meme13 : MatchedMeme :=
  { start := 0, endTime := 13, text := "t", keyword := "k", memeUrl := "u",
    segmentIndex := none, totalSegments := none }

/-! ### Arithmetic facts about the splitting -/

lemma expandMeme_of_le (g : String → ℕ → List String) (m : MatchedMeme)
    (h : m.endTime - m.start ≤ maxSegmentDuration) : expandMeme g m = [m] :=
  if_pos h

lemma expandMeme_of_lt (g : String → ℕ → List String) (m : MatchedMeme)
    (h : maxSegmentDuration < m.endTime - m.start) :
    expandMeme g m =
      (List.range (numSubSegments (m.endTime - m.start))).map
        (subSlot (g m.keyword (numSubSegments (m.endTime - m.start))) m
          (numSubSegments (m.endTime - m.start))) :=
  if_neg (not_le.mpr h)

lemma one_le_numFullSegments (d : ℚ) (hd : maxSegmentDuration < d) :
    1 ≤ numFullSegments d := by
  have h5 : (0:ℚ) < maxSegmentDuration := by norm_num [maxSegmentDuration]
  have h1 : (1:ℚ) ≤ d / maxSegmentDuration := by
    rw [le_div_iff₀ h5]
    simpa using hd.le
  have hfl : (1:ℤ) ≤ ⌊d / maxSegmentDuration⌋ := Int.le_floor.mpr (by exact_mod_cast h1)
  unfold numFullSegments
  omega

lemma cast_numFullSegments (d : ℚ) (hd : maxSegmentDuration < d) :
    ((numFullSegments d : ℕ) : ℚ) = (⌊d / maxSegmentDuration⌋ : ℚ) := by
  have h5 : (0:ℚ) < maxSegmentDuration := by norm_num [maxSegmentDuration]
  have hdpos : (0:ℚ) ≤ d / maxSegmentDuration := by
    apply div_nonneg _ h5.le
    have : (0:ℚ) < maxSegmentDuration := h5
    linarith [hd]
  have hfl : (0:ℤ) ≤ ⌊d / maxSegmentDuration⌋ := Int.floor_nonneg.mpr hdpos
  unfold numFullSegments
  have := Int.toNat_of_nonneg hfl
  exact_mod_cast congrArg (fun z : ℤ => (z : ℚ)) this

lemma segmentRemainder_nonneg (d : ℚ) (hd : maxSegmentDuration < d) :
    0 ≤ segmentRemainder d := by
  have h5 : (0:ℚ) < maxSegmentDuration := by norm_num [maxSegmentDuration]
  have hfl : (⌊d / maxSegmentDuration⌋ : ℚ) ≤ d / maxSegmentDuration :=
    Int.floor_le _
  have := mul_le_mul_of_nonneg_right hfl h5.le
  rw [div_mul_cancel₀ _ h5.ne'] at this
  unfold segmentRemainder
  rw [cast_numFullSegments d hd]
  linarith

lemma segmentRemainder_lt_max (d : ℚ) (hd : maxSegmentDuration < d) :
    segmentRemainder d < maxSegmentDuration := by
  have h5 : (0:ℚ) < maxSegmentDuration := by norm_num [maxSegmentDuration]
  have hfl : d / maxSegmentDuration < (⌊d / maxSegmentDuration⌋ : ℚ) + 1 :=
    Int.lt_floor_add_one _
  have := mul_lt_mul_of_pos_right hfl h5
  rw [div_mul_cancel₀ _ h5.ne'] at this
  unfold segmentRemainder
  rw [cast_numFullSegments d hd]
  linarith

/-- The remainder adjustment (src/index.js 720-726) either keeps
`numFullSegments` (remainder below the minimum, possibly zero) or adds one
segment (remainder at least the minimum). -/
lemma numSubSegments_cases (d : ℚ) :
    (numSubSegments d = numFullSegments d ∧ segmentRemainder d < minSegmentDuration) ∨
    (numSubSegments d = numFullSegments d + 1 ∧ minSegmentDuration ≤ segmentRemainder d) := by
  unfold numSubSegments
  split_ifs with h1 h2
  · exact Or.inl ⟨rfl, h1.2⟩
  · exact Or.inr ⟨rfl, h2⟩
  · exact Or.inl ⟨rfl, not_le.mp h2⟩

lemma one_le_numSubSegments (d : ℚ) (hd : maxSegmentDuration < d) :
    1 ≤ numSubSegments d := by
  rcases numSubSegments_cases d with ⟨h, _⟩ | ⟨h, _⟩ <;>
    · rw [h]
      have := one_le_numFullSegments d hd
      omega

lemma getLast?_range_map {α : Type} (f : ℕ → α) {K : ℕ} (hK : 0 < K) :
    ((List.range K).map f).getLast? = some (f (K - 1)) := by
  rw [List.getLast?_eq_getElem?]
  have hlt : K - 1 < K := by omega
  simp [List.getElem?_range, hlt]

lemma head?_range_map {α : Type} (f : ℕ → α) {K : ℕ} (hK : 0 < K) :
    ((List.range K).map f).head? = some (f 0) := by
  obtain ⟨K', rfl⟩ : ∃ K', K = K' + 1 := ⟨K - 1, by omega⟩
  rw [List.range_succ_eq_map]
  simp

/-! ### Concrete evaluations for the worked cases of the spec -/

lemma numFullSegments_twelve : numFullSegments 12 = 2 := by
  have h : ⌊(12:ℚ) / maxSegmentDuration⌋ = 2 := by
    rw [Int.floor_eq_iff]
    norm_num [maxSegmentDuration]
  unfold numFullSegments
  rw [h]
  rfl

lemma segmentRemainder_twelve : segmentRemainder 12 = 2 := by
  unfold segmentRemainder
  rw [numFullSegments_twelve]
  norm_num [maxSegmentDuration]

lemma numSubSegments_twelve : numSubSegments 12 = 2 := by
  unfold numSubSegments
  rw [segmentRemainder_twelve, numFullSegments_twelve]
  norm_num [minSegmentDuration]

lemma numFullSegments_thirteen : numFullSegments 13 = 2 := by
  have h : ⌊(13:ℚ) / maxSegmentDuration⌋ = 2 := by
    rw [Int.floor_eq_iff]
    norm_num [maxSegmentDuration]
  unfold numFullSegments
  rw [h]
  rfl

lemma segmentRemainder_thirteen : segmentRemainder 13 = 3 := by
  unfold segmentRemainder
  rw [numFullSegments_thirteen]
  norm_num [maxSegmentDuration]

lemma numSubSegments_thirteen : numSubSegments 13 = 3 := by
  unfold numSubSegments
  rw [segmentRemainder_thirteen, numFullSegments_thirteen]
  norm_num [minSegmentDuration]

lemma meme12_duration : meme12.endTime - meme12.start = 12 := by
  simp [meme12]

lemma meme13_duration : meme13.endTime - meme13.start = 13 := by
  simp [meme13]

lemma meme12_long : maxSegmentDuration < meme12.endTime - meme12.start := by
  rw [meme12_duration]
  norm_num [maxSegmentDuration]

lemma meme13_long : maxSegmentDuration < meme13.endTime - meme13.start := by
  rw [meme13_duration]
  norm_num [maxSegmentDuration]

lemma expandMeme_twelve_ranges (g : String → ℕ → List String) :
    (expandMeme g meme12).map (fun s => (s.start, s.endTime)) = [(0, 5), (5, 12)] := by
  rw [expandMeme_of_lt g meme12 meme12_long, meme12_duration, numSubSegments_twelve]
  norm_num [List.range_succ, subSlot, meme12, maxSegmentDuration]

lemma expandMeme_thirteen_ranges (g : String → ℕ → List String) :
    (expandMeme g meme13).map (fun s => (s.start, s.endTime)) = [(0, 5), (5, 10), (10, 13)] := by
  rw [expandMeme_of_lt g meme13 meme13_long, meme13_duration, numSubSegments_thirteen]
  norm_num [List.range_succ, subSlot, meme13, maxSegmentDuration]

lemma expandMeme_twelve_eval :
    expandMeme noExtraMemes meme12 =
      [{ start := 0, endTime := 5, text := "t", keyword := "k", memeUrl := "u",
         segmentIndex := some 1, totalSegments := some 2 },
       { start := 5, endTime := 12, text := "t", keyword := "k", memeUrl := "u",
         segmentIndex := some 2, totalSegments := some 2 }] := by
  rw [expandMeme_of_lt _ _ meme12_long, meme12_duration, numSubSegments_twelve]
  norm_num [List.range_succ, subSlot, subSegmentUrl, meme12, noExtraMemes, maxSegmentDuration]

lemma expandMeme_twelve_two_eval :
    expandMeme twoExtraMemes meme12 =
      [{ start := 0, endTime := 5, text := "t", keyword := "k", memeUrl := "u1",
         segmentIndex := some 1, totalSegments := some 2 },
       { start := 5, endTime := 12, text := "t", keyword := "k", memeUrl := "u2",
         segmentIndex := some 2, totalSegments := some 2 }] := by
  rw [expandMeme_of_lt _ _ meme12_long, meme12_duration, numSubSegments_twelve]
  norm_num [List.range_succ, subSlot, subSegmentUrl, meme12, twoExtraMemes, maxSegmentDuration]
  refine ⟨fun h => ?_, fun h => ?_⟩ <;> simp at h

/-- Modelled from the spec (the SegmentExpander algorithm, spec sections 4.2
and 8), for comparison with the source definition `expandMeme`: the slot
ranges the spec prescribes for one MatchedAsset of duration `d = end - start`.
One unchanged slot when `d ≤ maxSlotDuration`; otherwise with
`n = floor(d / maxSlotDuration)` and `remainder = d - n * maxSlotDuration`,
`n` slots with the last end extended to the original end when `0 < remainder <
minSlotDuration`, and `n + 1` slots, all of length `maxSlotDuration` except
the last, which runs to the original end, when `remainder ≥ minSlotDuration`.
The spec fixes no behaviour for a remainder of exactly zero; there the code
emits `n` full slots, which this definition mirrors in its final branch. -/
def specSlotRanges (m : MatchedMeme) : List (ℚ × ℚ) :=
  if m.endTime - m.start ≤ maxSegmentDuration then
    [(m.start, m.endTime)]
  else if 0 < segmentRemainder (m.endTime - m.start) ∧
      segmentRemainder (m.endTime - m.start) < minSegmentDuration then
    (List.range (numFullSegments (m.endTime - m.start))).map fun (i : ℕ) =>
      (m.start + (i : ℚ) * maxSegmentDuration,
        if i = numFullSegments (m.endTime - m.start) - 1 then m.endTime
        else m.start + ((i : ℚ) + 1) * maxSegmentDuration)
  else if minSegmentDuration ≤ segmentRemainder (m.endTime - m.start) then
    (List.range (numFullSegments (m.endTime - m.start) + 1)).map fun (i : ℕ) =>
      (m.start + (i : ℚ) * maxSegmentDuration,
        if i = numFullSegments (m.endTime - m.start) then m.endTime
        else m.start + ((i : ℚ) + 1) * maxSegmentDuration)
  else
    (List.range (numFullSegments (m.endTime - m.start))).map fun (i : ℕ) =>
      (m.start + (i : ℚ) * maxSegmentDuration,
        if i = numFullSegments (m.endTime - m.start) - 1 then m.endTime
        else m.start + ((i : ℚ) + 1) * maxSegmentDuration)

/-- C1: segment expansion emits one unchanged slot for `d ≤ maxSlotDuration`;
otherwise `n = floor(d / maxSlotDuration)` slots with the last end
extended to the original end when `0 < remainder < minSlotDuration`, and
`n + 1` slots, non-final slots of length `maxSlotDuration` and the final slot
running to the original end, when `remainder ≥ minSlotDuration`; in
particular `d = 12.0` yields the two slots `[0,5), [5,12)` and `d = 13.0`
yields the three slots `[0,5), [5,10), [10,13)`. -/
theorem expandMeme_matches_specSlotRanges (g : String → ℕ → List String) (m : MatchedMeme) :
    (expandMeme g m).map (fun s => (s.start, s.endTime)) = specSlotRanges m ∧
    (m.endTime - m.start ≤ maxSegmentDuration → expandMeme g m = [m]) ∧
    (expandMeme g meme12).map (fun s => (s.start, s.endTime)) = [(0, 5), (5, 12)] ∧
    (expandMeme g meme13).map (fun s => (s.start, s.endTime)) = [(0, 5), (5, 10), (10, 13)] := by
  refine ⟨?_, expandMeme_of_le g m, expandMeme_twelve_ranges g, expandMeme_thirteen_ranges g⟩
  by_cases hle : m.endTime - m.start ≤ maxSegmentDuration
  · rw [expandMeme_of_le g m hle]
    unfold specSlotRanges
    rw [if_pos hle]
    rfl
  · have hd := not_le.mp hle
    rw [expandMeme_of_lt g m hd]
    unfold specSlotRanges numSubSegments
    rw [if_neg hle, List.map_map]
    split_ifs with h1 h2 <;> rfl

/-! ### Slot duration analysis -/

lemma subSlot_duration_bounds (a : List String) (m : MatchedMeme)
    (hd : maxSegmentDuration < m.endTime - m.start) (i : ℕ)
    (hi : i < numSubSegments (m.endTime - m.start)) :
    minSegmentDuration ≤
        (subSlot a m (numSubSegments (m.endTime - m.start)) i).endTime -
          (subSlot a m (numSubSegments (m.endTime - m.start)) i).start ∧
      (subSlot a m (numSubSegments (m.endTime - m.start)) i).endTime -
          (subSlot a m (numSubSegments (m.endTime - m.start)) i).start <
        maxSegmentDuration + minSegmentDuration := by
  have hM : maxSegmentDuration = 5 := rfl
  have hm : minSegmentDuration = 3 := rfl
  have hr0 : 0 ≤ segmentRemainder (m.endTime - m.start) :=
    segmentRemainder_nonneg _ hd
  have hr5 : segmentRemainder (m.endTime - m.start) < maxSegmentDuration :=
    segmentRemainder_lt_max _ hd
  have hrdef : segmentRemainder (m.endTime - m.start) =
      (m.endTime - m.start) -
        numFullSegments (m.endTime - m.start) * maxSegmentDuration := rfl
  have hn1 : 1 ≤ numFullSegments (m.endTime - m.start) := one_le_numFullSegments _ hd
  by_cases hlast : i = numSubSegments (m.endTime - m.start) - 1
  · subst hlast
    simp only [subSlot, eq_self_iff_true, if_true]
    rcases numSubSegments_cases (m.endTime - m.start) with ⟨hK, hrlt⟩ | ⟨hK, hrge⟩
    · rw [hK]
      have hcast : ((numFullSegments (m.endTime - m.start) - 1 : ℕ) : ℚ) =
          (numFullSegments (m.endTime - m.start) : ℚ) - 1 := by
        push_cast [hn1]
        ring
      rw [hcast]
      simp only [hM, hm] at hr5 hrlt hrdef ⊢
      constructor <;> linarith [hr0]
    · rw [hK, Nat.add_sub_cancel]
      simp only [hM, hm] at hr5 hrge hrdef ⊢
      constructor <;> linarith [hr0]
  · simp only [subSlot, if_neg hlast]
    rw [hM, hm]
    constructor <;> · ring_nf; norm_num

lemma mem_expandMeme_split (g : String → ℕ → List String) (m s : MatchedMeme)
    (hd : maxSegmentDuration < m.endTime - m.start)
    (hs : s ∈ expandMeme g m) :
    ∃ i, i < numSubSegments (m.endTime - m.start) ∧
      s = subSlot (g m.keyword (numSubSegments (m.endTime - m.start))) m
            (numSubSegments (m.endTime - m.start)) i := by
  rw [expandMeme_of_lt g m hd] at hs
  obtain ⟨i, hi, rfl⟩ := List.mem_map.mp hs
  exact ⟨i, List.mem_range.mp hi, rfl⟩

/-- C2 counterexample: a 12-second assignment is split into the slots
`[0,5)` and `[5,12)`, and the second slot lasts 7 seconds, above
`maxSlotDuration = 5`; so not every emitted slot obeys
`end - start ≤ maxSlotDuration`. -/
theorem expandLongSegments_slot_exceeds_max :
    ¬ (expandLongSegments noExtraMemes [meme12]).Forall
        (fun s => s.endTime - s.start ≤ maxSegmentDuration) := by
  have h : expandLongSegments noExtraMemes [meme12] =
      expandMeme noExtraMemes meme12 ++ [] := rfl
  rw [h, expandMeme_twelve_eval]
  intro hall
  rw [List.forall_iff_forall_mem] at hall
  have h2 := hall
    { start := 5, endTime := 12, text := "t", keyword := "k", memeUrl := "u",
      segmentIndex := some 2, totalSegments := some 2 } (by simp)
  norm_num [maxSegmentDuration] at h2

/-- C2 amended: every emitted slot has duration strictly below
`maxSlotDuration + minSlotDuration` (8 seconds) -- the final slot of a group
whose remainder is absorbed can exceed `maxSlotDuration`, as in the 12-second
counterexample -- and in any group that was split every slot, the final one
included, has duration at least `minSlotDuration`. -/
theorem expandMeme_duration_bounds (g : String → ℕ → List String) (m : MatchedMeme) :
    (expandMeme g m).Forall
      (fun s => s.endTime - s.start < maxSegmentDuration + minSegmentDuration) ∧
    (maxSegmentDuration < m.endTime - m.start →
      (expandMeme g m).Forall (fun s => minSegmentDuration ≤ s.endTime - s.start)) := by
  constructor
  · rw [List.forall_iff_forall_mem]
    intro s hs
    by_cases hle : m.endTime - m.start ≤ maxSegmentDuration
    · rw [expandMeme_of_le g m hle] at hs
      rw [List.mem_singleton] at hs
      subst hs
      have : (0:ℚ) < minSegmentDuration := by norm_num [minSegmentDuration]
      linarith
    · obtain ⟨i, hi, rfl⟩ := mem_expandMeme_split g m s (not_le.mp hle) hs
      exact (subSlot_duration_bounds _ m (not_le.mp hle) i hi).2
  · intro hd
    rw [List.forall_iff_forall_mem]
    intro s hs
    obtain ⟨i, hi, rfl⟩ := mem_expandMeme_split g m s hd hs
    exact (subSlot_duration_bounds _ m hd i hi).1

lemma expandLongSegments_eq_flatMap (g : String → ℕ → List String) (ms : List MatchedMeme) :
    expandLongSegments g ms = ms.flatMap (expandMeme g) := by
  induction ms with
  | nil => rfl
  | cons m rest ih =>
      rw [List.flatMap_cons, ← ih]
      rfl

/-- C10: segment expansion partitions each input range in order: the output
is the in-order concatenation of each input meme expansion, each expansion is
nonempty, starts at the input start, ends at the input end, is contiguous
(each slot ends where the next begins), and carries text and keyword through
unchanged. -/
theorem expandLongSegments_partition_order (g : String → ℕ → List String)
    (ms : List MatchedMeme) (m : MatchedMeme) :
    expandLongSegments g ms = ms.flatMap (expandMeme g) ∧
    0 < (expandMeme g m).length ∧
    (expandMeme g m).head?.map MatchedMeme.start = some m.start ∧
    (expandMeme g m).getLast?.map MatchedMeme.endTime = some m.endTime ∧
    List.Chain' (fun a b => a.endTime = b.start) (expandMeme g m) ∧
    (expandMeme g m).Forall (fun s => s.text = m.text ∧ s.keyword = m.keyword) := by
  refine ⟨expandLongSegments_eq_flatMap g ms, ?_, ?_, ?_, ?_, ?_⟩
  all_goals by_cases hle : m.endTime - m.start ≤ maxSegmentDuration
  case pos => simp [expandMeme_of_le g m hle]
  case neg =>
    have hd := not_le.mp hle
    have hK := one_le_numSubSegments (m.endTime - m.start) hd
    rw [expandMeme_of_lt g m hd]
    simp only [List.length_map, List.length_range]
    omega
  case pos => simp [expandMeme_of_le g m hle]
  case neg =>
    have hd := not_le.mp hle
    have hK := one_le_numSubSegments (m.endTime - m.start) hd
    rw [expandMeme_of_lt g m hd, head?_range_map _ (by omega)]
    simp [subSlot]
  case pos => simp [expandMeme_of_le g m hle]
  case neg =>
    have hd := not_le.mp hle
    have hK := one_le_numSubSegments (m.endTime - m.start) hd
    rw [expandMeme_of_lt g m hd, getLast?_range_map _ (by omega)]
    simp [subSlot]
  case pos => simp [expandMeme_of_le g m hle]
  case neg =>
    have hd := not_le.mp hle
    have hK := one_le_numSubSegments (m.endTime - m.start) hd
    rw [expandMeme_of_lt g m hd, List.chain'_map]
    obtain ⟨K', hK'⟩ : ∃ K', numSubSegments (m.endTime - m.start) = K' + 1 :=
      ⟨numSubSegments (m.endTime - m.start) - 1, by omega⟩
    rw [hK', List.chain'_range_succ]
    intro i hi
    have hne : i ≠ K' + 1 - 1 := by omega
    simp only [subSlot, if_neg hne]
    push_cast
    ring
  case pos => simp [expandMeme_of_le g m hle]
  case neg =>
    have hd := not_le.mp hle
    rw [List.forall_iff_forall_mem]
    intro s hs
    obtain ⟨i, hi, rfl⟩ := mem_expandMeme_split g m s hd hs
    exact ⟨rfl, rfl⟩

/-- C9 counterexample: when the 12-second assignment (original asset url "u")
is split in two and the matching collaborator supplies the additional assets
"u1" and "u2", the first emitted slot carries "u1", not the original "u":
the first slot does not keep the original assetURL, and the collaborator is
asked for as many assets as there are slots. -/
theorem expandLongSegments_first_slot_not_original :
    (expandLongSegments twoExtraMemes [meme12]).head?.map MatchedMeme.memeUrl = some "u1" ∧
    meme12.memeUrl = "u" ∧ "u1" ≠ "u" := by
  have h : expandLongSegments twoExtraMemes [meme12] =
      expandMeme twoExtraMemes meme12 ++ [] := rfl
  rw [h, expandMeme_twelve_two_eval]
  refine ⟨rfl, rfl, by simp⟩

/-- C9 amended: a group split into `k = numSubSegments d` slots asks the
collaborator for `k` additional assets, one for every slot including the
first; the i-th slot (0-based) uses the i-th additional asset, falling back
to the original assetURL when the collaborator supplies no entry at that
index (or an empty one); every slot is tagged with the 1-based
`segmentIndex = i + 1` and `totalSegments = k`; concretely the "u1", "u2"
collaborator yields first-slot url "u1", not the original "u". -/
theorem subSlot_url_and_tags (g : String → ℕ → List String) (a : List String)
    (m : MatchedMeme) (k i : ℕ) :
    (maxSegmentDuration < m.endTime - m.start →
      expandMeme g m =
        (List.range (numSubSegments (m.endTime - m.start))).map
          (subSlot (g m.keyword (numSubSegments (m.endTime - m.start))) m
            (numSubSegments (m.endTime - m.start)))) ∧
    (subSlot a m k i).memeUrl = subSegmentUrl a i m.memeUrl ∧
    (subSlot a m k i).segmentIndex = some (i + 1) ∧
    (subSlot a m k i).totalSegments = some k ∧
    (a.length ≤ i → subSegmentUrl a i m.memeUrl = m.memeUrl) ∧
    (expandLongSegments twoExtraMemes [meme12]).map MatchedMeme.memeUrl = ["u1", "u2"] := by
  refine ⟨expandMeme_of_lt g m, rfl, rfl, rfl, ?_, ?_⟩
  · intro hlen
    unfold subSegmentUrl
    rw [List.get?_eq_none.mpr hlen]
  · have h : expandLongSegments twoExtraMemes [meme12] =
        expandMeme twoExtraMemes meme12 ++ [] := rfl
    rw [h, expandMeme_twelve_two_eval]
    rfl

/-! ## HTTP layer: review continuation (src/server.js 193-218) -/

/-- One reviewed keyword as posted to `/api/continue/:jobId`. -/
structure ReviewedKeyword where
  keyword : String
deriving DecidableEq

/-- One entry of the keyword data stored when a detailed-mode job pauses. -/
structure KeywordEntry where
  start : ℚ
  endTime : ℚ
  text : String
  keyword : String
deriving DecidableEq

/-- The per-job fields the `/api/continue/:jobId` handler touches (an entry of
the `activeJobs` map of src/server.js). -/
structure Job where
  status : String
  progress : ℕ
  message : String
  keywordData : List KeywordEntry
  reviewedKeywords : Option (List ReviewedKeyword)
deriving DecidableEq

inductive ContinueResponse
  | notFound
  | badRequest (msg : String)
  | accepted (msg : String)
deriving DecidableEq

/-- The `/api/continue/:jobId` handler (src/server.js lines 193-218).  A
missing job is 404; a missing or non-array `keywords` body (modelled `none`)
is 400 and mutates nothing.  Any array is accepted: the handler stores it,
sets status `keywords_reviewed`, progress 50, and invokes
`continueDetailedGeneration` in the background (the returned Bool).  The
handler never compares the submitted length with `job.keywordData.length`. -/
def apiContinue (job : Option Job) (keywords : Option (List ReviewedKeyword)) :
    ContinueResponse × Option Job × Bool :=
  match job with
  | none => (ContinueResponse.notFound, none, false)
  | some j =>
    match keywords with
    | none => (ContinueResponse.badRequest "Keywords array is required", some j, false)
    | some ks =>
        (ContinueResponse.accepted "Keywords received, continuing generation",
         some { j with
                  reviewedKeywords := some ks
                  status := "keywords_reviewed"
                  message := "Keywords reviewed, continuing generation..."
                  progress := 50 },
         true)

/-- A job paused for keyword review with two stored keyword entries
(the state `generateVideoAsync` leaves after storing pause data,
src/server.js lines 461-480). -/
def jobAwaitingReview : Job :=
  { status := "keywords_extracted", progress := 40,
    message := "Keywords extracted, waiting for user review",
    keywordData :=
      [{ start := 0, endTime := 2, text := "a", keyword := "ka" },
       { start := 2, endTime := 4, text := "b", keyword := "kb" }],
    reviewedKeywords := none }

/-- C3 counterexample: a job awaiting review holds 2 keyword entries; posting
a reviewed list of length 1 is accepted anyway -- the response is the
success message, the status changes to `keywords_reviewed`, and the
continuation stage is started.  No `ReviewMismatch` failure exists and the
status does not stay `keywords_extracted`. -/
theorem apiContinue_accepts_mismatched_length :
    jobAwaitingReview.keywordData.length = 2 ∧
    ([{ keyword := "x" }] : List ReviewedKeyword).length = 1 ∧
    (apiContinue (some jobAwaitingReview) (some [{ keyword := "x" }])).1 =
      ContinueResponse.accepted "Keywords received, continuing generation" ∧
    ((apiContinue (some jobAwaitingReview) (some [{ keyword := "x" }])).2.1.map Job.status) =
      some "keywords_reviewed" ∧
    (apiContinue (some jobAwaitingReview) (some [{ keyword := "x" }])).2.2 = true ∧
    jobAwaitingReview.status = "keywords_extracted" :=
  ⟨rfl, rfl, rfl, rfl, rfl, rfl⟩

/-- C3 amended: the continuation endpoint performs no length check at all:
any submitted array, of any length, is accepted with the success message,
sets status `keywords_reviewed` and progress 50 and starts the continuation;
only a missing or non-array body is rejected (400), leaving the status
unchanged and starting nothing. -/
theorem apiContinue_no_length_check (j : Job) (ks : List ReviewedKeyword) :
    (apiContinue (some j) (some ks)).1 =
      ContinueResponse.accepted "Keywords received, continuing generation" ∧
    ((apiContinue (some j) (some ks)).2.1.map Job.status) = some "keywords_reviewed" ∧
    ((apiContinue (some j) (some ks)).2.1.map Job.progress) = some 50 ∧
    (apiContinue (some j) (some ks)).2.2 = true ∧
    (apiContinue (some j) none).1 = ContinueResponse.badRequest "Keywords array is required" ∧
    ((apiContinue (some j) none).2.1.map Job.status) = some j.status ∧
    (apiContinue (some j) none).2.2 = false :=
  ⟨rfl, rfl, rfl, rfl, rfl, rfl, rfl⟩

/-! ## HTTP layer: job creation (src/server.js 57-130, src/utils/timeHelpers.js) -/

/-- JS `timeStr.split(':')` for the single-character separator, on the
character list of the string: splitting never drops empty chunks, and the
empty list yields one empty chunk, as `"".split(':')` yields `[""]`. -/
def splitOnChar (sep : Char) : List Char → List (List Char)
  | [] => [[]]
  | c :: rest =>
      match splitOnChar sep rest with
      | [] => [[c]]
      | chunk :: more =>
          if c = sep then [] :: chunk :: more
          else (c :: chunk) :: more

/-- JS `Number(part)` restricted to the digit strings the time helpers are
used on (JS yields NaN on non-numeric parts; every comparison with NaN is
then false, a case the time strings of the API never exercise). -/
def parseNatDigits (cs : List Char) : ℕ :=
  cs.foldl (fun acc c => acc * 10 + (c.toNat - ('0').toNat)) 0

/-- Embedding of `timeToSeconds` (src/utils/timeHelpers.js lines 6-20): empty input is 0,
`MM:SS` and `HH:MM:SS` are converted, anything else is 0. -/
def timeToSeconds (timeStr : String) : ℕ :=
  if timeStr = "" then 0
  else
    match (splitOnChar ':' timeStr.toList).map parseNatDigits with
    | [m, s] => m * 60 + s
    | [h, m, s] => h * 3600 + m * 60 + s
    | _ => 0

/-- Embedding of `isValidTimeRange` (src/utils/timeHelpers.js lines 39-46): both strings
present (non-falsy), start strictly before end, start nonnegative, end
positive.  The server never calls it. -/
def isValidTimeRange (startTime endTime : String) : Bool :=
  if startTime = "" ∨ endTime = "" then false
  else
    decide (timeToSeconds startTime < timeToSeconds endTime ∧
      0 ≤ timeToSeconds startTime ∧ 0 < timeToSeconds endTime)

/-- The request fields `/api/generate` validates (src/server.js line 58);
absent fields are `none`. -/
structure GenerateRequest where
  youtubeUrl : Option String
  scriptText : Option String
  startTime : Option String
  endTime : Option String
deriving DecidableEq

inductive GenerateResponse
  | badRequest (msg : String)
  | started (mode : String)
deriving DecidableEq

/-- The `/api/generate` validation and job creation (src/server.js lines
57-130).  Script mode is active when `scriptText` is present and nonempty
after trimming; script mode further requires at least 10 characters; YouTube
mode requires a non-falsy `youtubeUrl`.  The returned Bool is whether a job
was stored in `activeJobs`.  `startTime` and `endTime` are never inspected:
they are passed through to the background generation untouched. -/
def apiGenerate (req : GenerateRequest) : GenerateResponse × Bool :=
  let scriptTrimLength :=
    match req.scriptText with
    | some s => s.trim.length
    | none => 0
  if 0 < scriptTrimLength then
    if scriptTrimLength < 10 then
      (GenerateResponse.badRequest "Script text must be at least 10 characters long", false)
    else
      (GenerateResponse.started "script", true)
  else
    match req.youtubeUrl with
    | none => (GenerateResponse.badRequest "YouTube URL is required for YouTube mode", false)
    | some u =>
        if u = "" then
          (GenerateResponse.badRequest "YouTube URL is required for YouTube mode", false)
        else
          (GenerateResponse.started "youtube", true)

/-- A creation request with a malformed trim range: start `00:10` is at or
after end `00:05`. -/
def badTrimRequest : GenerateRequest :=
  { youtubeUrl := some "https://www.youtube.com/watch?v=abc", scriptText := none,
    startTime := some "00:10", endTime := some "00:05" }

/-- C6 counterexample: the trim range `00:10 .. 00:05` is malformed
(`start ≥ end`, rejected by `isValidTimeRange`), yet `/api/generate` creates
the job and reports it started: trim ranges are never validated at job
creation. -/
theorem apiGenerate_accepts_malformed_trim :
    timeToSeconds "00:10" = 10 ∧
    timeToSeconds "00:05" = 5 ∧
    isValidTimeRange "00:10" "00:05" = false ∧
    badTrimRequest.startTime = some "00:10" ∧
    badTrimRequest.endTime = some "00:05" ∧
    apiGenerate badTrimRequest = (GenerateResponse.started "youtube", true) := by
  refine ⟨by decide, by decide, by decide, rfl, rfl, rfl⟩

/-- C6 amended: job creation fails (400, no job stored) when neither a
non-falsy source URL nor nonempty script text is present -- and also, in
script mode, when the trimmed script is shorter than 10 characters -- but a
malformed trim range is not validated: the outcome of `/api/generate` never
depends on `startTime` or `endTime`, so a job is created for any trim range
whenever the source checks pass. -/
theorem apiGenerate_validation (req : GenerateRequest) (st et : Option String) :
    ((req.scriptText = none ∨ req.scriptText.map String.trim = some "") →
      (req.youtubeUrl = none ∨ req.youtubeUrl = some "") →
      (apiGenerate req).2 = false ∧
        (apiGenerate req).1 =
          GenerateResponse.badRequest "YouTube URL is required for YouTube mode") ∧
    apiGenerate { req with startTime := st, endTime := et } = apiGenerate req :=
  by
  constructor
  · intro hscript hurl
    have hlen : (match req.scriptText with
        | some s => s.trim.length
        | none => 0) = 0 := by
      rcases hscript with h | h
      · rw [h]
      · match req.scriptText, h with
        | some s, h =>
            have : s.trim = "" := by simpa using h
            simp [this]
    rcases hurl with h | h <;>
      simp [apiGenerate, hlen, h]
  · rfl

/-! ## Job progress updates (src/server.js 303-396 and 398-511) -/

/-- The `updateJob` calls of `generateVideoAsync` (src/server.js 398-511):
the initial update, the log-driven updates of the custom logger (lines
432-441), the stored pause data of detailed mode (lines 461-480), and the two
terminal updates. -/
inductive YtEvent
  | initializing
  | step1
  | step2
  | step3
  | step4
  | memeSearchCompleted
  | step5
  | step6
  | generationCompleteMsg
  | downloadingAudio
  | fetchingVideo
  | pauseStored
  | completed
  | errored
deriving DecidableEq

/-- The progress value each `updateJob` call of `generateVideoAsync` writes
(src/server.js: 10 at line 416, 15/30/45/60/70/80/90/95 at lines 432-439,
10 at line 440, 8 at line 441, 40 at line 475, 100 at line 489, 0 at
line 510). -/
def ytProgress : YtEvent → ℕ
  | YtEvent.initializing => 10
  | YtEvent.step1 => 15
  | YtEvent.step2 => 30
  | YtEvent.step3 => 45
  | YtEvent.step4 => 60
  | YtEvent.memeSearchCompleted => 70
  | YtEvent.step5 => 80
  | YtEvent.step6 => 90
  | YtEvent.generationCompleteMsg => 95
  | YtEvent.downloadingAudio => 10
  | YtEvent.fetchingVideo => 8
  | YtEvent.pauseStored => 40
  | YtEvent.completed => 100
  | YtEvent.errored => 0

/-- The `updateJob` calls of `generateScriptVideoAsync` (src/server.js
303-396): initial 10, the log-driven table of lines 337-347, terminal 100
and 0. -/
inductive ScriptEvent
  | initializing
  | step1
  | step2
  | step3
  | step4
  | step5
  | memeSearchCompleted
  | step6
  | step7
  | generationCompleteMsg
  | generatingSpeech
  | downloadingMusic
  | completed
  | errored
deriving DecidableEq

def scriptProgress : ScriptEvent → ℕ
  | ScriptEvent.initializing => 10
  | ScriptEvent.step1 => 15
  | ScriptEvent.step2 => 25
  | ScriptEvent.step3 => 35
  | ScriptEvent.step4 => 50
  | ScriptEvent.step5 => 65
  | ScriptEvent.memeSearchCompleted => 75
  | ScriptEvent.step6 => 85
  | ScriptEvent.step7 => 90
  | ScriptEvent.generationCompleteMsg => 95
  | ScriptEvent.generatingSpeech => 12
  | ScriptEvent.downloadingMusic => 20
  | ScriptEvent.completed => 100
  | ScriptEvent.errored => 0

/-- An update that ends the update sequence of one run of
`generateVideoAsync`: the two terminal updates, or the stored pause of
detailed mode (after which the function returns and waits for review). -/
def isFinalYt : YtEvent → Bool
  | YtEvent.completed => true
  | YtEvent.errored => true
  | YtEvent.pauseStored => true
  | _ => false

/-- The update sequences one run of `generateVideoAsync` can emit: the
initial update first, then log-driven mid-run updates, ending with a
terminal update or the detailed-mode pause. -/
def validYtRun (events : List YtEvent) : Bool :=
  match events with
  | YtEvent.initializing :: rest =>
      match rest.getLast? with
      | some last =>
          isFinalYt last &&
            rest.dropLast.all (fun e => !isFinalYt e && !(e == YtEvent.initializing))
      | none => false
  | _ => false

/-- The progress values of a sequence of job updates. -/
def jobProgressTrace (events : List YtEvent) : List ℕ :=
  events.map ytProgress

/-- C5 counterexample: a run whose generator fails right after the initial
update emits progress 10 then 0 -- the error transition resets progress to 0,
below the initial 10 -- and a detailed-mode run that pauses emits
10, 15, 30, 45 and then stores 40; neither trace is non-decreasing. -/
theorem progress_not_monotone :
    validYtRun [YtEvent.initializing, YtEvent.errored] = true ∧
    jobProgressTrace [YtEvent.initializing, YtEvent.errored] = [10, 0] ∧
    ¬ List.Chain' (fun a b => a ≤ b)
        (jobProgressTrace [YtEvent.initializing, YtEvent.errored]) ∧
    validYtRun [YtEvent.initializing, YtEvent.step1, YtEvent.step2, YtEvent.step3,
        YtEvent.pauseStored] = true ∧
    jobProgressTrace [YtEvent.initializing, YtEvent.step1, YtEvent.step2, YtEvent.step3,
        YtEvent.pauseStored] = [10, 15, 30, 45, 40] ∧
    ¬ List.Chain' (fun a b => a ≤ b)
        (jobProgressTrace [YtEvent.initializing, YtEvent.step1, YtEvent.step2,
          YtEvent.step3, YtEvent.pauseStored]) := by
  refine ⟨by decide, by decide, ?_, by decide, by decide, ?_⟩
  · intro h
    rw [show jobProgressTrace [YtEvent.initializing, YtEvent.errored] = [10, 0] from by decide]
      at h
    simp [List.chain'_cons] at h
  · intro h
    rw [show jobProgressTrace [YtEvent.initializing, YtEvent.step1, YtEvent.step2,
        YtEvent.step3, YtEvent.pauseStored] = [10, 15, 30, 45, 40] from by decide] at h
    simp [List.chain'_cons] at h

/-- C5 amended: every progress value either generator can write is an integer
between 0 and 100, but progress is not monotone within a run: the transition
to the error state writes 0 (below every prior value) and the detailed-mode
pause writes 40 after the keyword-extraction update already wrote 45. -/
theorem progress_in_range (e : YtEvent) (e2 : ScriptEvent) (events : List YtEvent) :
    ytProgress e ≤ 100 ∧
    scriptProgress e2 ≤ 100 ∧
    (jobProgressTrace events).Forall (fun p => p ≤ 100) ∧
    ytProgress YtEvent.errored = 0 ∧
    ytProgress YtEvent.completed = 100 ∧
    scriptProgress ScriptEvent.errored = 0 ∧
    scriptProgress ScriptEvent.completed = 100 := by
  have hyt : ∀ e : YtEvent, ytProgress e ≤ 100 := by
    intro e
    cases e <;> decide
  have hscript : ∀ e : ScriptEvent, scriptProgress e ≤ 100 := by
    intro e
    cases e <;> decide
  refine ⟨hyt e, hscript e2, ?_, rfl, rfl, rfl, rfl⟩
  rw [List.forall_iff_forall_mem]
  intro p hp
  obtain ⟨ev, _, rfl⟩ := List.mem_map.mp hp
  exact hyt ev

/-! ## Audio retrieval (src/renderVideo.js 51-85, 133-162, 624-717) -/

/-- The state of the single output path `downloadAudioWithRetry` writes to:
nothing yet, the partial file a failed attempt left, or the completed
download of a successful attempt (tagged by which attempt wrote it). -/
inductive FileState
  | absent
  | incomplete (configIndex attempt : ℕ)
  | complete (configIndex attempt : ℕ)
deriving DecidableEq

/-- One executed download attempt of `downloadAudioWithRetry`: its
configuration index, its 1-based attempt number, the timeout armed for it
(`(60 + attempt * 30) * 1000` ms, src/renderVideo.js line 690), the state of
the output path when the attempt started, and whether it succeeded. -/
structure AttemptRecord where
  configIndex : ℕ
  attempt : ℕ
  timeoutMs : ℕ
  fileBefore : FileState
  succeeded : Bool
deriving DecidableEq

/-- The default `maxRetries = 3` (src/renderVideo.js line 624, and the
explicit argument 3 at the call site, line 150). -/
def maxRetriesDefault : ℕ := 3

/-- The three entries of `downloadConfigs` (src/renderVideo.js 625-658). -/
def downloadConfigsCount : ℕ := 3

/-- The progressive per-attempt timeout, in milliseconds
(src/renderVideo.js line 690: `(60 + attempt * 30) * 1000`). -/
def attemptTimeoutMs (attempt : ℕ) : ℕ :=
  (60 + attempt * 30) * 1000

/-- The inner retry loop `for (let attempt = 1; attempt <= maxRetries; ...)`
(src/renderVideo.js 664-712) for one configuration, driven by an `outcome`
oracle per (configIndex, attempt).  `k` counts the attempts still allowed, so
the current attempt number is `maxRetries - k + 1`.  Every attempt opens a
write stream on the same output path, truncating whatever is there
(`fileBefore` records what that was -- nothing is ever removed between
attempts); success returns at once, failure leaves a partial file and the
loop continues. -/
def runAttempts (outcome : ℕ → ℕ → Bool) (configIndex maxRetries : ℕ)
    (fileNow : FileState) : ℕ → Bool × List AttemptRecord × FileState
  | 0 => (false, [], fileNow)
  | k + 1 =>
      if outcome configIndex (maxRetries - k) then
        (true,
         [{ configIndex := configIndex, attempt := maxRetries - k,
            timeoutMs := (60 + (maxRetries - k) * 30) * 1000,
            fileBefore := fileNow, succeeded := true }],
         FileState.complete configIndex (maxRetries - k))
      else
        ((runAttempts outcome configIndex maxRetries
            (FileState.incomplete configIndex (maxRetries - k)) k).1,
         { configIndex := configIndex, attempt := maxRetries - k,
           timeoutMs := (60 + (maxRetries - k) * 30) * 1000,
           fileBefore := fileNow, succeeded := false } ::
           (runAttempts outcome configIndex maxRetries
             (FileState.incomplete configIndex (maxRetries - k)) k).2.1,
         (runAttempts outcome configIndex maxRetries
           (FileState.incomplete configIndex (maxRetries - k)) k).2.2)

/-- The outer configuration loop (src/renderVideo.js 660-713): configurations
are tried in order, the retry loop of each in turn; the first success stops
everything. -/
def runConfigs (outcome : ℕ → ℕ → Bool) (maxRetries : ℕ) (fileNow : FileState) :
    List ℕ → Bool × List AttemptRecord × FileState
  | [] => (false, [], fileNow)
  | ci :: rest =>
      if (runAttempts outcome ci maxRetries fileNow maxRetries).1 then
        runAttempts outcome ci maxRetries fileNow maxRetries
      else
        ((runConfigs outcome maxRetries
            (runAttempts outcome ci maxRetries fileNow maxRetries).2.2 rest).1,
         (runAttempts outcome ci maxRetries fileNow maxRetries).2.1 ++
           (runConfigs outcome maxRetries
             (runAttempts outcome ci maxRetries fileNow maxRetries).2.2 rest).2.1,
         (runConfigs outcome maxRetries
           (runAttempts outcome ci maxRetries fileNow maxRetries).2.2 rest).2.2)

/-- The error thrown when every configuration and retry failed
(src/renderVideo.js line 716). -/
def allMethodsFailedMsg : String :=
  "Failed to download audio after trying all methods. This video may be restricted, age-gated, or geoblocked. Try a different video."

/-- Embedding of `downloadAudioWithRetry` (src/renderVideo.js 624-717): tries every
configuration with up to `maxRetries` attempts each, returning on the first
success, and throwing the aggregate message when everything failed.  The
returned trace lists the attempts actually executed, and the final
`FileState` is what is left at the output path. -/
def downloadAudioWithRetry (outcome : ℕ → ℕ → Bool) (maxRetries : ℕ) :
    Except String Unit × List AttemptRecord × FileState :=
  (if (runConfigs outcome maxRetries FileState.absent (List.range downloadConfigsCount)).1 then
     Except.ok ()
   else Except.error allMethodsFailedMsg,
   (runConfigs outcome maxRetries FileState.absent (List.range downloadConfigsCount)).2.1,
   (runConfigs outcome maxRetries FileState.absent (List.range downloadConfigsCount)).2.2)

/-- The error message `Invalid YouTube URL format` thrown at
src/renderVideo.js line 137. -/
def invalidUrlMsg : String := "Invalid YouTube URL format"

/-- Embedding of `downloadWithYtdlCore` (src/renderVideo.js 133-162): validate the URL,
fetch video info, run `downloadAudioWithRetry`, then convert the audio with
FFmpeg; the first failing phase aborts the whole strategy.  The URL check,
the info fetch and the audio processing are external effects, modelled by
their results. -/
def downloadWithYtdlCore (urlValid : Bool) (infoResult : Except String Unit)
    (outcome : ℕ → ℕ → Bool) (processResult : Except String Unit) :
    Except String Unit × List AttemptRecord :=
  if urlValid = false then
    (Except.error invalidUrlMsg, [])
  else
    match infoResult with
    | Except.error e => (Except.error e, [])
    | Except.ok _ =>
        match downloadAudioWithRetry outcome maxRetriesDefault with
        | (Except.error e, t, _) => (Except.error e, t)
        | (Except.ok _, t, _) =>
            match processResult with
            | Except.error e => (Except.error e, t)
            | Except.ok _ => (Except.ok (), t)

/-- The path `this.audioPath` (src/renderVideo.js line 27), the single local audio
path both strategies produce. -/
def audioPathLocal : String := "media/audio.m4a"

/-- Embedding of `downloadAudio` (src/renderVideo.js 51-85): try the yt-dlp strategy
(modelled by its overall result, including its own audio processing); on
failure fall back to the ytdl-core strategy; when both fail, throw the
aggregate error naming both strategies and each last error (line 82). -/
def downloadAudio (ytDlpResult : Except String String) (urlValid : Bool)
    (infoResult : Except String Unit) (outcome : ℕ → ℕ → Bool)
    (processResult : Except String Unit) :
    Except String String × List AttemptRecord :=
  match ytDlpResult with
  | Except.ok p => (Except.ok p, [])
  | Except.error e1 =>
      match downloadWithYtdlCore urlValid infoResult outcome processResult with
      | (Except.ok _, t) => (Except.ok audioPathLocal, t)
      | (Except.error e2, t) =>
          (Except.error ("Unable to download video. yt-dlp: " ++ e1 ++ ", ytdl-core: " ++ e2), t)

/-! ### Facts about the retry loops -/

lemma mem_runAttempts (outcome : ℕ → ℕ → Bool) (ci mr : ℕ) :
    ∀ (k : ℕ) (fs : FileState) (r : AttemptRecord),
      k ≤ mr → r ∈ (runAttempts outcome ci mr fs k).2.1 →
      r.configIndex = ci ∧ mr - k < r.attempt ∧ r.attempt ≤ mr ∧
        r.timeoutMs = attemptTimeoutMs r.attempt := by
  intro k
  induction k with
  | zero =>
      intro fs r _ hr
      simp [runAttempts] at hr
  | succ k ih =>
      intro fs r hk hr
      rw [runAttempts] at hr
      by_cases hok : outcome ci (mr - k) = true
      · rw [if_pos hok, List.mem_singleton] at hr
        subst hr
        exact ⟨rfl, by show mr - (k + 1) < mr - k; omega,
          by show mr - k ≤ mr; omega, rfl⟩
      · rw [if_neg hok] at hr
        dsimp only at hr
        rw [List.mem_cons] at hr
        rcases hr with rfl | hr
        · exact ⟨rfl, by show mr - (k + 1) < mr - k; omega,
            by show mr - k ≤ mr; omega, rfl⟩
        · have := ih _ r (by omega) hr
          exact ⟨this.1, by omega, this.2.2.1, this.2.2.2⟩

lemma mem_runConfigs (outcome : ℕ → ℕ → Bool) (mr : ℕ) :
    ∀ (cfgs : List ℕ) (fs : FileState) (r : AttemptRecord),
      r ∈ (runConfigs outcome mr fs cfgs).2.1 →
      r.configIndex ∈ cfgs ∧ 1 ≤ r.attempt ∧ r.attempt ≤ mr ∧
        r.timeoutMs = attemptTimeoutMs r.attempt := by
  intro cfgs
  induction cfgs with
  | nil =>
      intro fs r hr
      simp [runConfigs] at hr
  | cons ci rest ih =>
      intro fs r hr
      rw [runConfigs] at hr
      by_cases hs : (runAttempts outcome ci mr fs mr).1 = true
      · rw [if_pos hs] at hr
        have := mem_runAttempts outcome ci mr mr fs r le_rfl hr
        exact ⟨by rw [this.1]; exact List.mem_cons_self ci rest, by omega, this.2.2.1,
          this.2.2.2⟩
      · rw [if_neg hs] at hr
        dsimp only at hr
        rw [List.mem_append] at hr
        rcases hr with hr | hr
        · have := mem_runAttempts outcome ci mr mr fs r le_rfl hr
          exact ⟨by rw [this.1]; exact List.mem_cons_self ci rest, by omega, this.2.2.1,
            this.2.2.2⟩
        · have := ih _ r hr
          exact ⟨List.mem_cons_of_mem ci this.1, this.2.1, this.2.2.1, this.2.2.2⟩

lemma runAttempts_all_fail (outcome : ℕ → ℕ → Bool) (ci mr : ℕ) :
    ∀ (k : ℕ) (fs : FileState),
      (runAttempts outcome ci mr fs k).1 = false →
      ∀ r ∈ (runAttempts outcome ci mr fs k).2.1, r.succeeded = false := by
  intro k
  induction k with
  | zero =>
      intro fs _ r hr
      simp [runAttempts] at hr
  | succ k ih =>
      intro fs hfail r hr
      rw [runAttempts] at hfail hr
      by_cases hok : outcome ci (mr - k) = true
      · rw [if_pos hok] at hfail
        exact absurd hfail (by simp)
      · rw [if_neg hok] at hfail hr
        dsimp only at hfail hr
        rw [List.mem_cons] at hr
        rcases hr with rfl | hr
        · rfl
        · exact ih _ hfail r hr

lemma runAttempts_success_shape (outcome : ℕ → ℕ → Bool) (ci mr : ℕ) :
    ∀ (k : ℕ) (fs : FileState),
      (runAttempts outcome ci mr fs k).1 = true →
      ∃ t x, (runAttempts outcome ci mr fs k).2.1 = t ++ [x] ∧
        x.succeeded = true ∧ (∀ r ∈ t, r.succeeded = false) ∧
        (runAttempts outcome ci mr fs k).2.2 =
          FileState.complete x.configIndex x.attempt ∧
        outcome x.configIndex x.attempt = true := by
  intro k
  induction k with
  | zero =>
      intro fs h
      simp [runAttempts] at h
  | succ k ih =>
      intro fs h
      rw [runAttempts] at h ⊢
      by_cases hok : outcome ci (mr - k) = true
      · rw [if_pos hok] at h ⊢
        exact ⟨[], ⟨ci, mr - k, (60 + (mr - k) * 30) * 1000, fs, true⟩,
          by simp, rfl, by simp, rfl, hok⟩
      · rw [if_neg hok] at h ⊢
        dsimp only at h ⊢
        obtain ⟨t, x, ht, hx, hall, hfile, hout⟩ := ih _ h
        refine ⟨⟨ci, mr - k, (60 + (mr - k) * 30) * 1000, fs, false⟩ :: t, x,
          by rw [ht]; rfl, hx, ?_, hfile, hout⟩
        intro r hr
        rw [List.mem_cons] at hr
        rcases hr with rfl | hr
        · rfl
        · exact hall r hr

lemma runConfigs_all_fail (outcome : ℕ → ℕ → Bool) (mr : ℕ) :
    ∀ (cfgs : List ℕ) (fs : FileState),
      (runConfigs outcome mr fs cfgs).1 = false →
      ∀ r ∈ (runConfigs outcome mr fs cfgs).2.1, r.succeeded = false := by
  intro cfgs
  induction cfgs with
  | nil =>
      intro fs _ r hr
      simp [runConfigs] at hr
  | cons ci rest ih =>
      intro fs hfail r hr
      rw [runConfigs] at hfail hr
      by_cases hs : (runAttempts outcome ci mr fs mr).1 = true
      · rw [if_pos hs] at hfail
        exact absurd (hs.symm.trans hfail) (by simp)
      · rw [if_neg hs] at hfail hr
        dsimp only at hfail hr
        rw [List.mem_append] at hr
        rcases hr with hr | hr
        · exact runAttempts_all_fail outcome ci mr mr fs
            (by simpa using hs) r hr
        · exact ih _ hfail r hr

lemma runConfigs_success_shape (outcome : ℕ → ℕ → Bool) (mr : ℕ) :
    ∀ (cfgs : List ℕ) (fs : FileState),
      (runConfigs outcome mr fs cfgs).1 = true →
      ∃ t x, (runConfigs outcome mr fs cfgs).2.1 = t ++ [x] ∧
        x.succeeded = true ∧ (∀ r ∈ t, r.succeeded = false) ∧
        (runConfigs outcome mr fs cfgs).2.2 =
          FileState.complete x.configIndex x.attempt ∧
        outcome x.configIndex x.attempt = true := by
  intro cfgs
  induction cfgs with
  | nil =>
      intro fs h
      simp [runConfigs] at h
  | cons ci rest ih =>
      intro fs h
      rw [runConfigs] at h ⊢
      by_cases hs : (runAttempts outcome ci mr fs mr).1 = true
      · rw [if_pos hs] at h ⊢
        exact runAttempts_success_shape outcome ci mr mr fs hs
      · rw [if_neg hs] at h ⊢
        dsimp only at h ⊢
        obtain ⟨t, x, ht, hx, hall, hfile, hout⟩ := ih _ h
        refine ⟨(runAttempts outcome ci mr fs mr).2.1 ++ t, x,
          by rw [ht, List.append_assoc], hx, ?_, hfile, hout⟩
        intro r hr
        rw [List.mem_append] at hr
        rcases hr with hr | hr
        · exact runAttempts_all_fail outcome ci mr mr fs (by simpa using hs) r hr
        · exact hall r hr

/-- Every attempt starts with exactly the file the previous attempt left
behind (nothing is removed in between), and the run ends with the file state
of the last attempt. -/
def chainedFiles : FileState → List AttemptRecord → FileState → Prop
  | fs, [], fsEnd => fsEnd = fs
  | fs, r :: rest, fsEnd =>
      r.fileBefore = fs ∧
      chainedFiles
        (if r.succeeded then FileState.complete r.configIndex r.attempt
         else FileState.incomplete r.configIndex r.attempt) rest fsEnd

lemma chainedFiles_append (t₁ : List AttemptRecord) :
    ∀ (fs₁ fs₂ fs₃ : FileState) (t₂ : List AttemptRecord),
      chainedFiles fs₁ t₁ fs₂ → chainedFiles fs₂ t₂ fs₃ →
      chainedFiles fs₁ (t₁ ++ t₂) fs₃ := by
  induction t₁ with
  | nil =>
      intro fs₁ fs₂ fs₃ t₂ h1 h2
      rw [chainedFiles] at h1
      subst h1
      simpa using h2
  | cons r rest ih =>
      intro fs₁ fs₂ fs₃ t₂ h1 h2
      rw [chainedFiles] at h1
      exact ⟨h1.1, ih _ _ _ _ h1.2 h2⟩

lemma runAttempts_chained (outcome : ℕ → ℕ → Bool) (ci mr : ℕ) :
    ∀ (k : ℕ) (fs : FileState),
      chainedFiles fs (runAttempts outcome ci mr fs k).2.1
        (runAttempts outcome ci mr fs k).2.2 := by
  intro k
  induction k with
  | zero =>
      intro fs
      rw [runAttempts]
      exact rfl
  | succ k ih =>
      intro fs
      rw [runAttempts]
      by_cases hok : outcome ci (mr - k) = true
      · rw [if_pos hok]
        exact ⟨rfl, by simp [chainedFiles, hok]⟩
      · rw [if_neg (by simpa using hok)]
        refine ⟨rfl, ?_⟩
        have hok2 : outcome ci (mr - k) = false := by simpa using hok
        simpa [hok2] using ih (if outcome ci (mr - k) = true then
          FileState.complete ci (mr - k) else FileState.incomplete ci (mr - k))

lemma runConfigs_chained (outcome : ℕ → ℕ → Bool) (mr : ℕ) :
    ∀ (cfgs : List ℕ) (fs : FileState),
      chainedFiles fs (runConfigs outcome mr fs cfgs).2.1
        (runConfigs outcome mr fs cfgs).2.2 := by
  intro cfgs
  induction cfgs with
  | nil =>
      intro fs
      rw [runConfigs]
      exact rfl
  | cons ci rest ih =>
      intro fs
      rw [runConfigs]
      by_cases hs : (runAttempts outcome ci mr fs mr).1 = true
      · rw [if_pos hs]
        exact runAttempts_chained outcome ci mr mr fs
      · rw [if_neg hs]
        exact chainedFiles_append _ _ _ _ _
          (runAttempts_chained outcome ci mr mr fs) (ih _)

/-- C8: within `downloadAudioWithRetry`, every configuration retries up to
`maxRetries = 3` times -- the all-failing run executes exactly attempts
1, 2, 3 of each of the three configurations, in order, before the aggregate
error -- and the timeout armed for an attempt is `60 + 30 * attempt` seconds,
strictly increasing in the attempt number. -/
theorem downloadAudioWithRetry_retry_schedule (outcome : ℕ → ℕ → Bool) (a b : ℕ) :
    ((downloadAudioWithRetry (fun _ _ => false) maxRetriesDefault).2.1.map
        (fun r => (r.configIndex, r.attempt))) =
      [(0, 1), (0, 2), (0, 3), (1, 1), (1, 2), (1, 3), (2, 1), (2, 2), (2, 3)] ∧
    (downloadAudioWithRetry (fun _ _ => false) maxRetriesDefault).1 =
      Except.error allMethodsFailedMsg ∧
    ((downloadAudioWithRetry outcome maxRetriesDefault).2.1.Forall
      (fun r => 1 ≤ r.attempt ∧ r.attempt ≤ maxRetriesDefault ∧
        r.configIndex < downloadConfigsCount ∧
        r.timeoutMs = attemptTimeoutMs r.attempt)) ∧
    (a < b → attemptTimeoutMs a < attemptTimeoutMs b) ∧
    attemptTimeoutMs a = (60 + 30 * a) * 1000 := by
  refine ⟨by decide, rfl, ?_, ?_, ?_⟩
  · rw [List.forall_iff_forall_mem]
    intro r hr
    have h := mem_runConfigs outcome maxRetriesDefault (List.range downloadConfigsCount)
      FileState.absent r hr
    exact ⟨by omega, h.2.2.1, List.mem_range.mp h.1, h.2.2.2⟩
  · intro hab
    unfold attemptTimeoutMs
    omega
  · unfold attemptTimeoutMs
    ring

/-- C4 counterexample: with a failing yt-dlp strategy and a source URL that
the ytdl-core fallback rejects upfront (`ytdl.validateURL` false, e.g. a
non-YouTube URL), the operation fails -- the aggregate error does name both
strategies -- after zero download attempts: of the 9 strategy-2
configuration x retry combinations, none was attempted, so the operation can
fail without every combination having failed. -/
theorem downloadAudio_fails_with_zero_attempts :
    downloadAudio (Except.error "boom") false (Except.ok ()) (fun _ _ => false)
        (Except.ok ()) =
      (Except.error
        "Unable to download video. yt-dlp: boom, ytdl-core: Invalid YouTube URL format",
       ([] : List AttemptRecord)) ∧
    downloadConfigsCount * maxRetriesDefault = 9 ∧
    ([] : List AttemptRecord).length = 0 := by
  refine ⟨rfl, rfl, rfl⟩

/-- C4 amended: the operation fails only when both strategies have failed,
surfacing an aggregate error that names each strategy (yt-dlp, ytdl-core)
together with its last error; a yt-dlp success returns immediately with no
fallback attempt, and inside the fallback retry loop the first successful
attempt ends everything (every earlier attempt failed, none runs afterwards)
while a loop failure means every executed attempt failed.  The ytdl-core
strategy can, however, also fail before any download attempt (invalid URL,
failed info fetch) or after a successful one (audio processing), so an
overall failure does not imply every configuration was attempted. -/
theorem downloadAudio_aggregate_and_shortcircuit (p e1 : String) (urlValid : Bool)
    (infoResult : Except String Unit) (outcome : ℕ → ℕ → Bool)
    (processResult : Except String Unit) (mr : ℕ) :
    downloadAudio (Except.ok p) urlValid infoResult outcome processResult =
      (Except.ok p, []) ∧
    (∀ e, (downloadAudio (Except.error e1) urlValid infoResult outcome processResult).1 =
        Except.error e →
      ∃ e2, (downloadWithYtdlCore urlValid infoResult outcome processResult).1 =
          Except.error e2 ∧
        e = "Unable to download video. yt-dlp: " ++ e1 ++ ", ytdl-core: " ++ e2) ∧
    ((downloadAudioWithRetry outcome mr).1 = Except.ok () →
      ∃ t x, (downloadAudioWithRetry outcome mr).2.1 = t ++ [x] ∧
        x.succeeded = true ∧ ∀ r ∈ t, r.succeeded = false) ∧
    ((downloadAudioWithRetry outcome mr).1 = Except.error allMethodsFailedMsg →
      ∀ r ∈ (downloadAudioWithRetry outcome mr).2.1, r.succeeded = false) := by
  refine ⟨rfl, ?_, ?_, ?_⟩
  · intro e he
    rcases h2 : downloadWithYtdlCore urlValid infoResult outcome processResult with ⟨r2, t⟩
    cases r2 with
    | ok u =>
        rw [downloadAudio, h2] at he
        dsimp only at he
        exact absurd he (by simp)
    | error e2 =>
        rw [downloadAudio, h2] at he
        dsimp only at he
        refine ⟨e2, rfl, ?_⟩
        have := Except.error.inj he
        exact this.symm
  · intro h
    have hflag : (runConfigs outcome mr FileState.absent
        (List.range downloadConfigsCount)).1 = true := by
      by_cases hb : (runConfigs outcome mr FileState.absent
          (List.range downloadConfigsCount)).1 = true
      · exact hb
      · rw [downloadAudioWithRetry] at h
        dsimp only at h
        rw [if_neg hb] at h
        exact absurd h (by simp)
    obtain ⟨t, x, ht, hx, hall, hfile, hout⟩ :=
      runConfigs_success_shape outcome mr _ _ hflag
    exact ⟨t, x, ht, hx, hall⟩
  · intro h
    have hflag : (runConfigs outcome mr FileState.absent
        (List.range downloadConfigsCount)).1 = false := by
      by_cases hb : (runConfigs outcome mr FileState.absent
          (List.range downloadConfigsCount)).1 = true
      · rw [downloadAudioWithRetry] at h
        dsimp only at h
        rw [if_pos hb] at h
        exact absurd h (by simp)
      · simpa using hb
    exact runConfigs_all_fail outcome mr _ _ hflag

/-- An outcome oracle whose first attempt of configuration 0 fails and whose
second succeeds. -/
def failThenSucceed : ℕ → ℕ → Bool := fun ci a => ci == 0 && a == 2

/-- C7 counterexample: with the first attempt failing and the second
succeeding, the second attempt starts with the partial file of the first
attempt still present at the output path: it was not removed before the next
attempt started, merely truncated and overwritten by that attempt. -/
theorem leftover_before_retry :
    ((downloadAudioWithRetry failThenSucceed maxRetriesDefault).2.1.map
        (fun r => (r.configIndex, r.attempt, r.fileBefore, r.succeeded))) =
      [(0, 1, FileState.absent, false), (0, 2, FileState.incomplete 0 1, true)] ∧
    FileState.incomplete 0 1 ≠ FileState.absent ∧
    (downloadAudioWithRetry failThenSucceed maxRetriesDefault).2.2 =
      FileState.complete 0 2 := by
  refine ⟨by decide, by decide, by decide⟩

/-- C7 amended: partial downloads are never removed between attempts -- each
retry starts with exactly the file state the failed previous attempt left and
overwrites it in place -- but because every attempt writes the same single
output path, a successful retrieval ends with that one path holding the
completed download of the succeeding attempt, and no partial file of a failed
attempt remains anywhere. -/
theorem downloadAudioWithRetry_file_lifecycle (outcome : ℕ → ℕ → Bool) (mr : ℕ) :
    chainedFiles FileState.absent (downloadAudioWithRetry outcome mr).2.1
      (downloadAudioWithRetry outcome mr).2.2 ∧
    ((downloadAudioWithRetry outcome mr).1 = Except.ok () →
      ∃ ci a, (downloadAudioWithRetry outcome mr).2.2 = FileState.complete ci a ∧
        outcome ci a = true) := by
  constructor
  · exact runConfigs_chained outcome mr (List.range downloadConfigsCount) FileState.absent
  · intro h
    have hflag : (runConfigs outcome mr FileState.absent
        (List.range downloadConfigsCount)).1 = true := by
      by_cases hb : (runConfigs outcome mr FileState.absent
          (List.range downloadConfigsCount)).1 = true
      · exact hb
      · rw [downloadAudioWithRetry] at h
        dsimp only at h
        rw [if_neg hb] at h
        exact absurd h (by simp)
    obtain ⟨t, x, ht, hx, hall, hfile, hout⟩ :=
      runConfigs_success_shape outcome mr _ _ hflag
    exact ⟨x.configIndex, x.attempt, hfile, hout⟩

end MemeSync
